/-
Verification of the Dubins path-length core (src/src/Dubins.cpp).

The single-pair solver `dubinsPathLength`, the tour-cost aggregation
`dubinsTourCost` and the matrix builder `buildDubinsAdjacencyMatrix` are
embedded over the reals, points of the plane being complex numbers (standing
for the `Vector2d`/`Vector3d` planar vectors of the source; the third
coordinate of the source's `Vector3d` values is always 0).

The geometry primitives `wrapAngle`, `headingToAngle` and `headingBetween`
live in the repository's Util module, which is not part of the sources at
hand; they are modelled from the spec (section 4.1), see the individual
doc comments.
-/
import Mathlib

open Real

/-- A planar pose: position and heading, as in the source's `Configuration`
(accessors `x()`, `y()`, field `m_heading`). -/
structure Configuration where
  x : ℝ
  y : ℝ
  heading : ℝ

/-- The position of a pose as a point of the plane. -/
def pos (C : Configuration) : ℂ := ⟨C.x, C.y⟩

/-- Modelled from the spec: `wrapAngle` of the Util module (not among the
sources at hand).  Spec 4.1: normalizes an angle into one consistent half-open
interval, here `[0, 2π)`; this is the fixed-point-free form
`θ - 2π·⌊θ/(2π)⌋` of the usual `fmod`-with-correction implementation. -/
noncomputable def wrapAngle (θ : ℝ) : ℝ := θ - 2*π*⌊θ/(2*π)⌋

/-- Modelled from the spec: `headingToAngle` of the Util module (not among the
sources at hand).  Spec 4.1: converts a heading (zero at the "up" axis) into a
standard mathematical angle (zero at the "right" axis).  The conversion used is
`θ = π/2 - heading` (compass-style headings): it is the reading under which the
sweep formulas of `dubinsPathLength` — which measure the forward sweep of a
right turn as `wrapAngle (2π + wrapAngle a - wrapAngle b)` with the tangent
direction first — are geometrically consistent. -/
noncomputable def headingToAngle (heading : ℝ) : ℝ := wrapAngle (π/2 - heading)

/-- The planar unit vector at mathematical angle `θ`; the source writes it
inline as `Vector3d(cos(θ), sin(θ), 0.0)`. -/
noncomputable def dirc (θ : ℝ) : ℂ := ⟨Real.cos θ, Real.sin θ⟩

/-- Modelled from the spec: `headingBetween` of the Util module (not among the
sources at hand).  Spec 4.1: the angle of the vector from A to B, in the
heading convention of the other primitives — that is, `atan2` of the vector
pushed back through the inverse of `headingToAngle`. -/
noncomputable def headingBetween (A B : ℂ) : ℝ := wrapAngle (π/2 - Complex.arg (B - A))

/-- Right-turn circle center at a pose (Dubins.cpp lines 61-77: position offset
by `r` along the direction `headingToAngle(heading) - π/2`; `PC_rs`, `PC_re`). -/
noncomputable def PC_rs (C : Configuration) (r : ℝ) : ℂ :=
  pos C + r * dirc (headingToAngle C.heading - π/2)

/-- Left-turn circle center at a pose (Dubins.cpp lines 61-77: position offset
by `r` along the direction `headingToAngle(heading) + π/2`; `PC_ls`, `PC_le`). -/
noncomputable def PC_ls (C : Configuration) (r : ℝ) : ℂ :=
  pos C + r * dirc (headingToAngle C.heading + π/2)

/-- The double-wrapped forward sweep `wrapAngle(2π + wrapAngle a - wrapAngle b)`
used by every arc term of Dubins.cpp (spec 4.2 step 4). -/
noncomputable def sweep (a b : ℝ) : ℝ := wrapAngle (2*π + wrapAngle a - wrapAngle b)

/-- Case I (R-S-R) candidate length `L1`, Dubins.cpp lines 87-91. -/
noncomputable def dubinsL1 (Cs Ce : Configuration) (r : ℝ) : ℝ :=
  Complex.abs (PC_rs Cs r - PC_rs Ce r)
    + r * sweep (headingBetween (PC_rs Cs r) (PC_rs Ce r) - π/2) (Cs.heading - π/2)
    + r * sweep (Ce.heading - π/2) (headingBetween (PC_rs Cs r) (PC_rs Ce r) - π/2)

/-- Center distance `ls` of Case II (R-S-L), Dubins.cpp line 98. -/
noncomputable def lsRSL (Cs Ce : Configuration) (r : ℝ) : ℝ :=
  Complex.abs (PC_ls Ce r - PC_rs Cs r)

/-- Tangent direction `x2` of Case II (R-S-L), Dubins.cpp line 100. -/
noncomputable def x2RSL (Cs Ce : Configuration) (r : ℝ) : ℝ :=
  headingBetween (PC_rs Cs r) (PC_ls Ce r) - π/2 + Real.arcsin (2*r / lsRSL Cs Ce r)

/-- Case II (R-S-L) candidate length `L2`, Dubins.cpp lines 97-103. -/
noncomputable def dubinsL2 (Cs Ce : Configuration) (r : ℝ) : ℝ :=
  Real.sqrt (lsRSL Cs Ce r * lsRSL Cs Ce r - 4*r*r)
    + r * sweep (x2RSL Cs Ce r) (Cs.heading - π/2)
    + r * sweep (x2RSL Cs Ce r + π) (Ce.heading + π/2)

/-- Center distance `ls` of Case III (L-S-R), Dubins.cpp line 111. -/
noncomputable def lsLSR (Cs Ce : Configuration) (r : ℝ) : ℝ :=
  Complex.abs (PC_rs Ce r - PC_ls Cs r)

/-- Tangent direction `x + x2` of Case III (L-S-R), Dubins.cpp lines 112-113. -/
noncomputable def x2LSR (Cs Ce : Configuration) (r : ℝ) : ℝ :=
  headingBetween (PC_ls Cs r) (PC_rs Ce r) + Real.arccos (2*r / lsLSR Cs Ce r)

/-- Case III (L-S-R) candidate length `L3`, Dubins.cpp lines 118-120. -/
noncomputable def dubinsL3 (Cs Ce : Configuration) (r : ℝ) : ℝ :=
  Real.sqrt (lsLSR Cs Ce r * lsLSR Cs Ce r - 4*r*r)
    + r * sweep (Cs.heading + π/2) (x2LSR Cs Ce r)
    + r * sweep (Ce.heading - π/2) (x2LSR Cs Ce r - π)

/-- Case IV (L-S-L) candidate length `L4`, Dubins.cpp lines 125-129. -/
noncomputable def dubinsL4 (Cs Ce : Configuration) (r : ℝ) : ℝ :=
  Complex.abs (PC_ls Cs r - PC_ls Ce r)
    + r * sweep (Cs.heading + π/2) (headingBetween (PC_ls Cs r) (PC_ls Ce r) + π/2)
    + r * sweep (headingBetween (PC_ls Cs r) (PC_ls Ce r) + π/2) (Ce.heading + π/2)

/-- Case III acos-argument range check of Dubins.cpp line 114
(`2.0*r/ls > 1.0 || 2.0*r/ls < -1.0`).  The last disjunct mirrors IEEE
division: for `ls = 0` the C++ quotient `2r/±0` is `±∞` when `r ≠ 0` and is
caught by the range test, while under Lean's convention `x/0 = 0` the two
comparisons alone would miss it (for `r = 0` and `ls = 0` the C++ quotient is
NaN, both comparisons are false, and the check does not fire — as here). -/
def lsrOutOfRange (Cs Ce : Configuration) (r : ℝ) : Prop :=
  2*r / lsLSR Cs Ce r > 1 ∨ 2*r / lsLSR Cs Ce r < -1 ∨ (lsLSR Cs Ce r = 0 ∧ r ≠ 0)

/-- Condition under which the C++ Case II value `L2` is IEEE NaN: the argument
`ls*ls - 4r²` of its square root is negative, or the argument `2r/ls` of its
`asin` falls outside `[-1, 1]` (Dubins.cpp lines 100-101 perform no range
check, unlike Case III), or `ls = 0` (then the C++ quotient is `±∞` or
`0/0 = NaN`, and `asin` of it is NaN in every case). -/
def rslIsNaN (Cs Ce : Configuration) (r : ℝ) : Prop :=
  lsRSL Cs Ce r * lsRSL Cs Ce r - 4*r*r < 0 ∨ lsRSL Cs Ce r = 0
    ∨ 2*r / lsRSL Cs Ce r > 1 ∨ 2*r / lsRSL Cs Ce r < -1

open Classical in
/-- The shortest-Dubins-path length solver, Dubins.cpp lines 40-137.  Returns
the `-1.0` failure sentinel from the distance-precondition check (lines 52-55)
and from the Case III range check (lines 114-117).  The final
`std::min({L1, L2, L3, L4})` is `min_element` under `operator<`, which never
selects an IEEE-NaN entry that is not first (every `<` comparison against NaN
is false, and `L1` — always a real number — comes first); in the real-valued
semantics the returned value is therefore the minimum with `L2` left out
whenever `rslIsNaN` holds. -/
noncomputable def dubinsPathLength (Cs Ce : Configuration) (r : ℝ) : ℝ :=
  if Complex.abs (pos Cs - pos Ce) < 3*r then -1
  else if lsrOutOfRange Cs Ce r then -1
  else if rslIsNaN Cs Ce r then
    min (dubinsL1 Cs Ce r) (min (dubinsL3 Cs Ce r) (dubinsL4 Cs Ce r))
  else
    min (dubinsL1 Cs Ce r)
      (min (dubinsL2 Cs Ce r) (min (dubinsL3 Cs Ce r) (dubinsL4 Cs Ce r)))

/-- The `MAX_EDGE_COST` sentinel, Dubins.cpp line 33. -/
def MAX_EDGE_COST : ℝ := 999999

/-- Sum of `dubinsPathLength` over the consecutive pairs of a pose list: the
accumulation loop of Dubins.cpp lines 158-167 (`cost += dubinsPathLength(...)`
over edge indices `0 ≤ i < modTour.size() - 1`). -/
noncomputable def edgeSum (r : ℝ) : List Configuration → ℝ
  | u :: v :: rest => dubinsPathLength u v r + edgeSum r (v :: rest)
  | _ => 0

/-- Tour cost, Dubins.cpp lines 144-170 (`dubinsTourCost`): `0` for fewer than
2 poses (line 150); otherwise the consecutive-pair edge sum over the tour,
extended by the closing edge back to the first pose when `returnCost` is set
(lines 153-156: `modTour.pushBack(*(tour.begin()))`). -/
noncomputable def dubinsTourCost (tour : List Configuration) (r : ℝ)
    (returnCost : Bool) : ℝ :=
  if tour.length < 2 then 0
  else edgeSum r (if returnCost then tour ++ tour.take 1 else tour)

/-- Adjacency matrix of Dubins path lengths, Dubins.cpp lines 177-195
(`buildDubinsAdjacencyMatrix`): `MAX_EDGE_COST` on the diagonal (`i == j`),
the raw `dubinsPathLength` value everywhere else. -/
noncomputable def buildDubinsAdjacencyMatrix {n : ℕ} (G : Fin n → Configuration)
    (turnRadius : ℝ) : Fin n → Fin n → ℝ :=
  fun i j => if i = j then MAX_EDGE_COST
    else dubinsPathLength (G i) (G j) turnRadius

/-! Basic facts about `wrapAngle`. -/

lemma wrapAngle_nonneg (θ : ℝ) : 0 ≤ wrapAngle θ := by
  have h := Int.floor_le (θ/(2*π))
  have h2 : 2*π*(⌊θ/(2*π)⌋:ℝ) ≤ 2*π*(θ/(2*π)) :=
    mul_le_mul_of_nonneg_left h (le_of_lt Real.two_pi_pos)
  rw [mul_div_cancel₀ _ (ne_of_gt Real.two_pi_pos)] at h2
  unfold wrapAngle; linarith

lemma wrapAngle_lt_two_pi (θ : ℝ) : wrapAngle θ < 2*π := by
  have h := Int.lt_floor_add_one (θ/(2*π))
  have h2 : 2*π*(θ/(2*π)) < 2*π*((⌊θ/(2*π)⌋:ℝ)+1) :=
    mul_lt_mul_of_pos_left h Real.two_pi_pos
  rw [mul_div_cancel₀ _ (ne_of_gt Real.two_pi_pos)] at h2
  unfold wrapAngle; linarith

lemma wrapAngle_add_int_mul (θ : ℝ) (k : ℤ) :
    wrapAngle (θ + 2*π*k) = wrapAngle θ := by
  unfold wrapAngle
  have h : (θ + 2*π*k)/(2*π) = θ/(2*π) + k := by
    field_simp; ring
  rw [h, Int.floor_add_int]
  push_cast
  ring

lemma wrapAngle_sub_int_mul (θ : ℝ) (k : ℤ) :
    wrapAngle (θ - 2*π*k) = wrapAngle θ := by
  have := wrapAngle_add_int_mul θ (-k)
  push_cast at this
  rw [← this]; ring_nf

lemma wrapAngle_exists_int (θ : ℝ) : ∃ k : ℤ, wrapAngle θ = θ - 2*π*k :=
  ⟨⌊θ/(2*π)⌋, rfl⟩

lemma wrapAngle_eq_sub (θ : ℝ) (k : ℤ) (h1 : 2*π*k ≤ θ) (h2 : θ < 2*π*(k+1)) :
    wrapAngle θ = θ - 2*π*k := by
  unfold wrapAngle
  have hk : ⌊θ/(2*π)⌋ = k := by
    rw [Int.floor_eq_iff]
    constructor
    · rw [le_div_iff₀ Real.two_pi_pos]; linarith
    · rw [div_lt_iff₀ Real.two_pi_pos]
      linarith
  rw [hk]

lemma sweep_eq (a b : ℝ) : sweep a b = wrapAngle (a - b) := by
  obtain ⟨ka, hka⟩ := wrapAngle_exists_int a
  obtain ⟨kb, hkb⟩ := wrapAngle_exists_int b
  unfold sweep
  rw [hka, hkb]
  have h : 2*π + (a - 2*π*ka) - (b - 2*π*kb) = (a - b) + 2*π*((1 - ka + kb : ℤ):ℝ) := by
    push_cast; ring
  rw [h, wrapAngle_add_int_mul]

/-! Direction vectors, chords and radial decompositions. -/

lemma mk_re (a b : ℝ) : (⟨a, b⟩ : ℂ).re = a := rfl

lemma mk_im (a b : ℝ) : (⟨a, b⟩ : ℂ).im = b := rfl

lemma dirc_eq_complex (θ : ℝ) : dirc θ = Complex.cos θ + Complex.sin θ * Complex.I := by
  unfold dirc
  rw [Complex.mk_eq_add_mul_I, Complex.ofReal_cos, Complex.ofReal_sin]

lemma dirc_congr (a b : ℝ) (k : ℤ) (h : a = b + 2*π*k) : dirc a = dirc b := by
  subst h
  unfold dirc
  rw [show b + 2*π*k = b + (k:ℝ)*(2*π) by ring, Real.cos_add_int_mul_two_pi,
    Real.sin_add_int_mul_two_pi]

lemma dirc_add_pi (θ : ℝ) : dirc (θ + π) = -dirc θ := by
  unfold dirc
  apply Complex.ext
  · rw [mk_re, Complex.neg_re, mk_re, Real.cos_add, Real.cos_pi, Real.sin_pi]; ring
  · rw [mk_im, Complex.neg_im, mk_im, Real.sin_add, Real.cos_pi, Real.sin_pi]; ring

lemma abs_dirc (θ : ℝ) : Complex.abs (dirc θ) = 1 := by
  rw [Complex.abs_apply]
  unfold dirc
  rw [Complex.normSq_mk]
  rw [show Real.cos θ * Real.cos θ + Real.sin θ * Real.sin θ = 1 by
    nlinarith [Real.sin_sq_add_cos_sq θ]]
  exact Real.sqrt_one

lemma cos_wrapAngle (θ : ℝ) : Real.cos (wrapAngle θ) = Real.cos θ := by
  obtain ⟨k, hk⟩ := wrapAngle_exists_int θ
  rw [hk, show θ - 2*π*k = θ - (k:ℝ)*(2*π) by ring, Real.cos_sub_int_mul_two_pi]

lemma normSq_dirc_sub (a b : ℝ) :
    Complex.normSq (dirc a - dirc b) = 2 - 2*Real.cos (a - b) := by
  unfold dirc
  rw [show ((⟨Real.cos a, Real.sin a⟩ : ℂ) - ⟨Real.cos b, Real.sin b⟩)
      = (⟨Real.cos a - Real.cos b, Real.sin a - Real.sin b⟩ : ℂ) from
    Complex.ext rfl rfl]
  rw [Complex.normSq_mk, Real.cos_sub]
  nlinarith [Real.sin_sq_add_cos_sq a, Real.sin_sq_add_cos_sq b]

lemma abs_dirc_sub (a b : ℝ) :
    Complex.abs (dirc a - dirc b) = 2*|Real.sin ((a - b)/2)| := by
  rw [Complex.abs_apply, normSq_dirc_sub]
  have h1 : Real.cos (a - b) = 1 - 2*Real.sin ((a - b)/2)^2 := by
    have h2 := Real.cos_two_mul ((a - b)/2)
    have h3 := Real.sin_sq_add_cos_sq ((a - b)/2)
    rw [show 2*((a - b)/2) = a - b by ring] at h2
    nlinarith
  have h4 : 2 - 2*Real.cos (a - b) = (2*|Real.sin ((a - b)/2)|)^2 := by
    rw [h1]
    rw [show (2*|Real.sin ((a - b)/2)|)^2 = 4*|Real.sin ((a - b)/2)|^2 by ring, sq_abs]
    ring
  rw [h4, Real.sqrt_sq (by positivity)]

lemma sin_half_wrapAngle (t : ℝ) : |Real.sin (t/2)| = Real.sin (wrapAngle t / 2) := by
  obtain ⟨k, hk⟩ := wrapAngle_exists_int t
  have h1 : t/2 = wrapAngle t / 2 + (k:ℝ)*π := by rw [hk]; ring
  have h2 : Real.sin (t/2) = Real.sin (wrapAngle t / 2) * Real.cos ((k:ℝ)*π) := by
    rw [h1, Real.sin_add, Real.sin_int_mul_pi]; ring
  have h3 : |Real.cos ((k:ℝ)*π)| = 1 := by
    have h4 := Real.sin_sq_add_cos_sq ((k:ℝ)*π)
    rw [Real.sin_int_mul_pi] at h4
    nlinarith [abs_nonneg (Real.cos ((k:ℝ)*π)), sq_abs (Real.cos ((k:ℝ)*π))]
  have h5 : 0 ≤ Real.sin (wrapAngle t / 2) := by
    apply Real.sin_nonneg_of_nonneg_of_le_pi
    · linarith [wrapAngle_nonneg t]
    · linarith [wrapAngle_lt_two_pi t]
  rw [h2, abs_mul, h3, mul_one, abs_of_nonneg h5]

lemma chord_le (c : ℂ) (r a b : ℝ) (hr : 0 ≤ r) :
    Complex.abs ((c + r*dirc a) - (c + r*dirc b)) ≤ r * wrapAngle (a - b) := by
  have h1 : (c + r*dirc a) - (c + r*dirc b) = (r:ℂ)*(dirc a - dirc b) := by ring
  rw [h1, map_mul, Complex.abs_ofReal, abs_of_nonneg hr, abs_dirc_sub,
    sin_half_wrapAngle]
  have h2 : Real.sin (wrapAngle (a - b)/2) ≤ wrapAngle (a - b)/2 :=
    Real.sin_le (by linarith [wrapAngle_nonneg (a - b)])
  nlinarith [wrapAngle_nonneg (a - b), mul_le_mul_of_nonneg_left h2 hr]

lemma eq_abs_mul_dirc (z : ℂ) : z = Complex.abs z * dirc (Complex.arg z) := by
  rw [dirc_eq_complex]
  exact (Complex.abs_mul_cos_add_sin_mul_I z).symm

lemma normSq_mul_dirc_sub (A B p q : ℝ) :
    Complex.normSq ((A:ℂ)*dirc p - (B:ℂ)*dirc q)
      = A^2 - 2*A*B*Real.cos (p - q) + B^2 := by
  unfold dirc
  rw [show ((A:ℂ)*(⟨Real.cos p, Real.sin p⟩ : ℂ) - (B:ℂ)*(⟨Real.cos q, Real.sin q⟩ : ℂ))
      = (⟨A*Real.cos p - B*Real.cos q, A*Real.sin p - B*Real.sin q⟩ : ℂ) from by
    apply Complex.ext
    · simp [Complex.mul_re, mk_re, mk_im]
    · simp [Complex.mul_im, mk_re, mk_im]]
  rw [Complex.normSq_mk, Real.cos_sub]
  nlinarith [Real.sin_sq_add_cos_sq p, Real.sin_sq_add_cos_sq q]

lemma pos_eq_PC_rs (C : Configuration) (r : ℝ) :
    pos C = PC_rs C r + r * dirc (π - C.heading) := by
  unfold PC_rs headingToAngle
  obtain ⟨k, hk⟩ := wrapAngle_exists_int (π/2 - C.heading)
  have h1 : dirc (wrapAngle (π/2 - C.heading) - π/2) = dirc (-C.heading) := by
    apply dirc_congr _ _ (-k)
    rw [hk]; push_cast; ring
  have h2 : dirc (π - C.heading) = -dirc (-C.heading) := by
    rw [show π - C.heading = -C.heading + π by ring, dirc_add_pi]
  rw [h1, h2]; ring

lemma pos_eq_PC_ls (C : Configuration) (r : ℝ) :
    pos C = PC_ls C r + r * dirc (-C.heading) := by
  unfold PC_ls headingToAngle
  obtain ⟨k, hk⟩ := wrapAngle_exists_int (π/2 - C.heading)
  have h1 : dirc (wrapAngle (π/2 - C.heading) + π/2) = dirc (π - C.heading) := by
    apply dirc_congr _ _ (-k)
    rw [hk]; push_cast; ring
  have h2 : dirc (-C.heading) = -dirc (π - C.heading) := by
    have h3 : dirc (-C.heading) = dirc ((π - C.heading) + π) := by
      apply dirc_congr _ _ (-1)
      push_cast; ring
    rw [h3, dirc_add_pi]
  rw [h1, h2]; ring

lemma path_triangle (P T1 T2 Q : ℂ) :
    Complex.abs (P - Q)
      ≤ Complex.abs (P - T1) + Complex.abs (T1 - T2) + Complex.abs (T2 - Q) := by
  have h1 := Complex.abs.sub_le P T1 Q
  have h2 := Complex.abs.sub_le T1 T2 Q
  linarith

lemma headingBetween_arg (z w : ℂ) :
    ∃ k : ℤ, Complex.arg (w - z) = π/2 - headingBetween z w + 2*π*k := by
  obtain ⟨k, hk⟩ := wrapAngle_exists_int (π/2 - Complex.arg (w - z))
  refine ⟨-k, ?_⟩
  unfold headingBetween
  rw [hk]; push_cast; ring

lemma dubinsL1_ge (Cs Ce : Configuration) (r : ℝ) (hr : 0 ≤ r) :
    Complex.abs (pos Cs - pos Ce) ≤ dubinsL1 Cs Ce r := by
  unfold dubinsL1
  set c1 := PC_rs Cs r with hc1
  set c2 := PC_rs Ce r with hc2
  set x := headingBetween c1 c2 with hx
  have h0 := path_triangle (pos Cs) (c1 + (r:ℂ)*dirc (π - x)) (c2 + (r:ℂ)*dirc (π - x)) (pos Ce)
  have h1 : Complex.abs (pos Cs - (c1 + (r:ℂ)*dirc (π - x)))
      ≤ r * sweep (x - π/2) (Cs.heading - π/2) := by
    rw [sweep_eq, show (x - π/2) - (Cs.heading - π/2) = (π - Cs.heading) - (π - x) by ring,
      pos_eq_PC_rs Cs r]
    exact chord_le c1 r (π - Cs.heading) (π - x) hr
  have h2 : Complex.abs ((c2 + (r:ℂ)*dirc (π - x)) - pos Ce)
      ≤ r * sweep (Ce.heading - π/2) (x - π/2) := by
    rw [sweep_eq, show (Ce.heading - π/2) - (x - π/2) = (π - x) - (π - Ce.heading) by ring,
      pos_eq_PC_rs Ce r]
    exact chord_le c2 r (π - x) (π - Ce.heading) hr
  have h3 : Complex.abs ((c1 + (r:ℂ)*dirc (π - x)) - (c2 + (r:ℂ)*dirc (π - x)))
      = Complex.abs (c1 - c2) := by
    rw [show (c1 + (r:ℂ)*dirc (π - x)) - (c2 + (r:ℂ)*dirc (π - x)) = c1 - c2 by ring]
  rw [h3] at h0
  linarith

lemma dubinsL4_ge (Cs Ce : Configuration) (r : ℝ) (hr : 0 ≤ r) :
    Complex.abs (pos Cs - pos Ce) ≤ dubinsL4 Cs Ce r := by
  unfold dubinsL4
  set c1 := PC_ls Cs r with hc1
  set c2 := PC_ls Ce r with hc2
  set x := headingBetween c1 c2 with hx
  have h0 := path_triangle (pos Cs) (c1 + (r:ℂ)*dirc (-x)) (c2 + (r:ℂ)*dirc (-x)) (pos Ce)
  have h1 : Complex.abs (pos Cs - (c1 + (r:ℂ)*dirc (-x)))
      ≤ r * sweep (Cs.heading + π/2) (x + π/2) := by
    rw [sweep_eq, show (Cs.heading + π/2) - (x + π/2) = (-x) - (-Cs.heading) by ring,
      pos_eq_PC_ls Cs r, Complex.abs.map_sub]
    exact chord_le c1 r (-x) (-Cs.heading) hr
  have h2 : Complex.abs ((c2 + (r:ℂ)*dirc (-x)) - pos Ce)
      ≤ r * sweep (x + π/2) (Ce.heading + π/2) := by
    rw [sweep_eq, show (x + π/2) - (Ce.heading + π/2) = (-Ce.heading) - (-x) by ring,
      pos_eq_PC_ls Ce r, Complex.abs.map_sub]
    exact chord_le c2 r (-Ce.heading) (-x) hr
  have h3 : Complex.abs ((c1 + (r:ℂ)*dirc (-x)) - (c2 + (r:ℂ)*dirc (-x)))
      = Complex.abs (c1 - c2) := by
    rw [show (c1 + (r:ℂ)*dirc (-x)) - (c2 + (r:ℂ)*dirc (-x)) = c1 - c2 by ring]
  rw [h3] at h0
  linarith

lemma dubinsL2_ge (Cs Ce : Configuration) (r : ℝ) (hr : 0 ≤ r)
    (hls : 2*r ≤ lsRSL Cs Ce r) (hpos : 0 < lsRSL Cs Ce r) :
    Complex.abs (pos Cs - pos Ce) ≤ dubinsL2 Cs Ce r := by
  unfold dubinsL2 x2RSL
  set c1 := PC_rs Cs r with hc1
  set c2 := PC_ls Ce r with hc2
  set x := headingBetween c1 c2 with hx
  set ls := lsRSL Cs Ce r with hlsdef
  set s := Real.arcsin (2*r/ls) with hsdef
  have hlseq : ls = Complex.abs (c2 - c1) := rfl
  have hne : ls ≠ 0 := ne_of_gt hpos
  have hsin : Real.sin s = 2*r/ls :=
    Real.sin_arcsin (le_trans (by norm_num) (div_nonneg (by linarith) hpos.le))
      ((div_le_one hpos).mpr hls)
  obtain ⟨k, hφ⟩ := headingBetween_arg c1 c2
  set φ := Complex.arg (c2 - c1) with hφdef
  have hu : dirc (π - x - s) = dirc (φ + (π/2 - s)) := by
    apply dirc_congr _ _ (-k)
    rw [hφ]; push_cast; ring
  have h1 : Complex.abs (pos Cs - (c1 + (r:ℂ)*dirc (π - x - s)))
      ≤ r * sweep (x - π/2 + s) (Cs.heading - π/2) := by
    rw [sweep_eq,
      show (x - π/2 + s) - (Cs.heading - π/2) = (π - Cs.heading) - (π - x - s) by ring,
      pos_eq_PC_rs Cs r]
    exact chord_le c1 r (π - Cs.heading) (π - x - s) hr
  have h2 : Complex.abs ((c2 - (r:ℂ)*dirc (π - x - s)) - pos Ce)
      ≤ r * sweep (x - π/2 + s + π) (Ce.heading + π/2) := by
    have hT2 : c2 - (r:ℂ)*dirc (π - x - s) = c2 + (r:ℂ)*dirc (2*π - x - s) := by
      rw [show 2*π - x - s = (π - x - s) + π by ring, dirc_add_pi]; ring
    rw [hT2, sweep_eq, Complex.abs.map_sub, pos_eq_PC_ls Ce r]
    have hch := chord_le c2 r (-Ce.heading) (2*π - x - s) hr
    rw [show (-Ce.heading) - (2*π - x - s)
        = ((x - π/2 + s + π) - (Ce.heading + π/2)) - 2*π*(1:ℤ) by push_cast; ring,
      wrapAngle_sub_int_mul] at hch
    exact hch
  have h3 : Complex.abs ((c1 + (r:ℂ)*dirc (π - x - s)) - (c2 - (r:ℂ)*dirc (π - x - s)))
      = Real.sqrt (ls*ls - 4*r*r) := by
    have e1 : (c1 + (r:ℂ)*dirc (π - x - s)) - (c2 - (r:ℂ)*dirc (π - x - s))
        = -((c2 - c1) - ((2*r : ℝ):ℂ)*dirc (π - x - s)) := by
      push_cast; ring
    have e2 : c2 - c1 = ((ls:ℝ):ℂ) * dirc φ := by
      rw [hlseq]; exact eq_abs_mul_dirc (c2 - c1)
    rw [e1, Complex.abs.map_neg, e2, hu, Complex.abs_apply, normSq_mul_dirc_sub,
      show φ - (φ + (π/2 - s)) = s - π/2 by ring, Real.cos_sub_pi_div_two, hsin]
    congr 1
    field_simp
    ring
  have h0 := path_triangle (pos Cs) (c1 + (r:ℂ)*dirc (π - x - s))
    (c2 - (r:ℂ)*dirc (π - x - s)) (pos Ce)
  rw [h3] at h0
  linarith

lemma dubinsL3_ge (Cs Ce : Configuration) (r : ℝ) (hr : 0 ≤ r)
    (hls : 2*r ≤ lsLSR Cs Ce r) (hpos : 0 < lsLSR Cs Ce r) :
    Complex.abs (pos Cs - pos Ce) ≤ dubinsL3 Cs Ce r := by
  unfold dubinsL3 x2LSR
  set c1 := PC_ls Cs r with hc1
  set c2 := PC_rs Ce r with hc2
  set x := headingBetween c1 c2 with hx
  set ls := lsLSR Cs Ce r with hlsdef
  set a := Real.arccos (2*r/ls) with hadef
  have hlseq : ls = Complex.abs (c2 - c1) := rfl
  have hne : ls ≠ 0 := ne_of_gt hpos
  have hcos : Real.cos a = 2*r/ls :=
    Real.cos_arccos (le_trans (by norm_num) (div_nonneg (by linarith) hpos.le))
      ((div_le_one hpos).mpr hls)
  obtain ⟨k, hφ⟩ := headingBetween_arg c1 c2
  set φ := Complex.arg (c2 - c1) with hφdef
  have hu : dirc (π/2 - x - a) = dirc (φ - a) := by
    apply dirc_congr _ _ (-k)
    rw [hφ]; push_cast; ring
  have h1 : Complex.abs (pos Cs - (c1 + (r:ℂ)*dirc (π/2 - x - a)))
      ≤ r * sweep (Cs.heading + π/2) (x + a) := by
    rw [sweep_eq,
      show (Cs.heading + π/2) - (x + a) = (π/2 - x - a) - (-Cs.heading) by ring,
      pos_eq_PC_ls Cs r, Complex.abs.map_sub]
    exact chord_le c1 r (π/2 - x - a) (-Cs.heading) hr
  have h2 : Complex.abs ((c2 - (r:ℂ)*dirc (π/2 - x - a)) - pos Ce)
      ≤ r * sweep (Ce.heading - π/2) (x + a - π) := by
    have hT2 : c2 - (r:ℂ)*dirc (π/2 - x - a) = c2 + (r:ℂ)*dirc (3*π/2 - x - a) := by
      rw [show 3*π/2 - x - a = (π/2 - x - a) + π by ring, dirc_add_pi]; ring
    rw [hT2, sweep_eq,
      show (Ce.heading - π/2) - (x + a - π) = (3*π/2 - x - a) - (π - Ce.heading) by ring,
      pos_eq_PC_rs Ce r]
    exact chord_le c2 r (3*π/2 - x - a) (π - Ce.heading) hr
  have h3 : Complex.abs ((c1 + (r:ℂ)*dirc (π/2 - x - a)) - (c2 - (r:ℂ)*dirc (π/2 - x - a)))
      = Real.sqrt (ls*ls - 4*r*r) := by
    have e1 : (c1 + (r:ℂ)*dirc (π/2 - x - a)) - (c2 - (r:ℂ)*dirc (π/2 - x - a))
        = -((c2 - c1) - ((2*r : ℝ):ℂ)*dirc (π/2 - x - a)) := by
      push_cast; ring
    have e2 : c2 - c1 = ((ls:ℝ):ℂ) * dirc φ := by
      rw [hlseq]; exact eq_abs_mul_dirc (c2 - c1)
    rw [e1, Complex.abs.map_neg, e2, hu, Complex.abs_apply, normSq_mul_dirc_sub,
      show φ - (φ - a) = a by ring, hcos]
    congr 1
    field_simp
    ring
  have h0 := path_triangle (pos Cs) (c1 + (r:ℂ)*dirc (π/2 - x - a))
    (c2 - (r:ℂ)*dirc (π/2 - x - a)) (pos Ce)
  rw [h3] at h0
  linarith

/-! Nonnegativity of the candidates and the main lower bound. -/

lemma sweep_nonneg (a b : ℝ) : 0 ≤ sweep a b := by
  rw [sweep_eq]; exact wrapAngle_nonneg _

lemma dubinsL1_nonneg (Cs Ce : Configuration) (r : ℝ) (hr : 0 ≤ r) :
    0 ≤ dubinsL1 Cs Ce r :=
  add_nonneg (add_nonneg (Complex.abs.nonneg _) (mul_nonneg hr (sweep_nonneg _ _)))
    (mul_nonneg hr (sweep_nonneg _ _))

lemma dubinsL2_nonneg (Cs Ce : Configuration) (r : ℝ) (hr : 0 ≤ r) :
    0 ≤ dubinsL2 Cs Ce r :=
  add_nonneg (add_nonneg (Real.sqrt_nonneg _) (mul_nonneg hr (sweep_nonneg _ _)))
    (mul_nonneg hr (sweep_nonneg _ _))

lemma dubinsL3_nonneg (Cs Ce : Configuration) (r : ℝ) (hr : 0 ≤ r) :
    0 ≤ dubinsL3 Cs Ce r :=
  add_nonneg (add_nonneg (Real.sqrt_nonneg _) (mul_nonneg hr (sweep_nonneg _ _)))
    (mul_nonneg hr (sweep_nonneg _ _))

lemma dubinsL4_nonneg (Cs Ce : Configuration) (r : ℝ) (hr : 0 ≤ r) :
    0 ≤ dubinsL4 Cs Ce r :=
  add_nonneg (add_nonneg (Complex.abs.nonneg _) (mul_nonneg hr (sweep_nonneg _ _)))
    (mul_nonneg hr (sweep_nonneg _ _))

lemma dubinsPathLength_neg_or_nonneg (Cs Ce : Configuration) (r : ℝ) (hr : 0 ≤ r) :
    dubinsPathLength Cs Ce r = -1 ∨ 0 ≤ dubinsPathLength Cs Ce r := by
  unfold dubinsPathLength
  split_ifs with h1 h2 h3
  · left; rfl
  · left; rfl
  · right
    exact le_min (dubinsL1_nonneg _ _ _ hr)
      (le_min (dubinsL3_nonneg _ _ _ hr) (dubinsL4_nonneg _ _ _ hr))
  · right
    exact le_min (dubinsL1_nonneg _ _ _ hr)
      (le_min (dubinsL2_nonneg _ _ _ hr)
        (le_min (dubinsL3_nonneg _ _ _ hr) (dubinsL4_nonneg _ _ _ hr)))

lemma abs_center_sub_ge (P Q : ℂ) (r a b : ℝ) (hr : 0 ≤ r) :
    Complex.abs (P - Q) - 2*r
      ≤ Complex.abs ((Q + (r:ℂ)*dirc a) - (P + (r:ℂ)*dirc b)) := by
  have h1 : Q - P = ((Q + (r:ℂ)*dirc a) - (P + (r:ℂ)*dirc b))
      - ((r:ℂ)*dirc a - (r:ℂ)*dirc b) := by ring
  have h2 := Complex.abs.sub_le ((Q + (r:ℂ)*dirc a) - (P + (r:ℂ)*dirc b)) 0
    ((r:ℂ)*dirc a - (r:ℂ)*dirc b)
  have h3 : Complex.abs ((r:ℂ)*dirc a - (r:ℂ)*dirc b) ≤ 2*r := by
    have h4 := Complex.abs.sub_le ((r:ℂ)*dirc a) 0 ((r:ℂ)*dirc b)
    have h5 : Complex.abs ((r:ℂ)*dirc a) = r := by
      rw [map_mul, Complex.abs_ofReal, abs_dirc, mul_one, abs_of_nonneg hr]
    have h6 : Complex.abs ((r:ℂ)*dirc b) = r := by
      rw [map_mul, Complex.abs_ofReal, abs_dirc, mul_one, abs_of_nonneg hr]
    simp only [sub_zero, zero_sub, map_neg_eq_map] at h4
    rw [h5, h6] at h4
    linarith
  have h7 : Complex.abs (P - Q) = Complex.abs (Q - P) := Complex.abs.map_sub _ _
  rw [h7, h1]
  simp only [sub_zero, zero_sub, map_neg_eq_map] at h2
  linarith

lemma lsRSL_lower (Cs Ce : Configuration) (r : ℝ) (hr : 0 ≤ r) :
    Complex.abs (pos Cs - pos Ce) - 2*r ≤ lsRSL Cs Ce r := by
  unfold lsRSL PC_ls PC_rs
  exact abs_center_sub_ge (pos Cs) (pos Ce) r _ _ hr

lemma lsLSR_lower (Cs Ce : Configuration) (r : ℝ) (hr : 0 ≤ r) :
    Complex.abs (pos Cs - pos Ce) - 2*r ≤ lsLSR Cs Ce r := by
  unfold lsLSR PC_rs PC_ls
  exact abs_center_sub_ge (pos Cs) (pos Ce) r _ _ hr

lemma dubinsPathLength_ge_dist (Cs Ce : Configuration) (r : ℝ) (hr : 0 < r)
    (hd : 3*r ≤ Complex.abs (pos Cs - pos Ce)) :
    dubinsPathLength Cs Ce r = -1
      ∨ Complex.abs (pos Cs - pos Ce) ≤ dubinsPathLength Cs Ce r := by
  have hRSLpos : 0 < lsRSL Cs Ce r :=
    lt_of_lt_of_le (by linarith) (lsRSL_lower Cs Ce r hr.le)
  have hLSRpos : 0 < lsLSR Cs Ce r :=
    lt_of_lt_of_le (by linarith) (lsLSR_lower Cs Ce r hr.le)
  unfold dubinsPathLength
  split_ifs with h1 h2 h3
  · left; rfl
  · left; rfl
  · right
    have hLSR : 2*r ≤ lsLSR Cs Ce r := by
      by_contra hcon
      push_neg at hcon
      exact h2 (Or.inl ((one_lt_div hLSRpos).mpr hcon))
    exact le_min (dubinsL1_ge _ _ _ hr.le)
      (le_min (dubinsL3_ge _ _ _ hr.le hLSR hLSRpos) (dubinsL4_ge _ _ _ hr.le))
  · right
    have hLSR : 2*r ≤ lsLSR Cs Ce r := by
      by_contra hcon
      push_neg at hcon
      exact h2 (Or.inl ((one_lt_div hLSRpos).mpr hcon))
    have hRSL : 2*r ≤ lsRSL Cs Ce r := by
      by_contra hcon
      push_neg at hcon
      refine h3 (Or.inl ?_)
      nlinarith
    exact le_min (dubinsL1_ge _ _ _ hr.le)
      (le_min (dubinsL2_ge _ _ _ hr.le hRSL hRSLpos)
        (le_min (dubinsL3_ge _ _ _ hr.le hLSR hLSRpos) (dubinsL4_ge _ _ _ hr.le)))

/-! Concrete evaluations: wrapped angles, directions, circle centers. -/

lemma wrap_zero : wrapAngle 0 = 0 := by
  rw [wrapAngle_eq_sub 0 0 (by push_cast; linarith [Real.pi_pos])
    (by push_cast; linarith [Real.pi_pos])]
  push_cast; ring

lemma wrap_pi_div_two : wrapAngle (π/2) = π/2 := by
  rw [wrapAngle_eq_sub (π/2) 0 (by push_cast; linarith [Real.pi_pos])
    (by push_cast; linarith [Real.pi_pos])]
  push_cast; ring

lemma wrap_pi : wrapAngle π = π := by
  rw [wrapAngle_eq_sub π 0 (by push_cast; linarith [Real.pi_pos])
    (by push_cast; linarith [Real.pi_pos])]
  push_cast; ring

lemma wrap_neg_pi_div_two : wrapAngle (-(π/2)) = 3*π/2 := by
  rw [wrapAngle_eq_sub (-(π/2)) (-1) (by push_cast; linarith [Real.pi_pos])
    (by push_cast; linarith [Real.pi_pos])]
  push_cast; ring

lemma wrap_three_pi_div_two : wrapAngle (3*π/2) = 3*π/2 := by
  rw [wrapAngle_eq_sub (3*π/2) 0 (by push_cast; linarith [Real.pi_pos])
    (by push_cast; linarith [Real.pi_pos])]
  push_cast; ring

lemma wrap_two_pi : wrapAngle (2*π) = 0 := by
  rw [wrapAngle_eq_sub (2*π) 1 (by push_cast; linarith [Real.pi_pos])
    (by push_cast; linarith [Real.pi_pos])]
  push_cast; ring

lemma wrap_five_pi_div_two : wrapAngle (5*π/2) = π/2 := by
  rw [wrapAngle_eq_sub (5*π/2) 1 (by push_cast; linarith [Real.pi_pos])
    (by push_cast; linarith [Real.pi_pos])]
  push_cast; ring

lemma wrap_seven_pi_div_two : wrapAngle (7*π/2) = 3*π/2 := by
  rw [wrapAngle_eq_sub (7*π/2) 1 (by push_cast; linarith [Real.pi_pos])
    (by push_cast; linarith [Real.pi_pos])]
  push_cast; ring

lemma wrap_three_pi : wrapAngle (3*π) = π := by
  rw [wrapAngle_eq_sub (3*π) 1 (by push_cast; linarith [Real.pi_pos])
    (by push_cast; linarith [Real.pi_pos])]
  push_cast; ring

lemma dirc_zero : dirc 0 = ⟨1, 0⟩ := by
  unfold dirc; rw [Real.cos_zero, Real.sin_zero]

lemma dirc_pi : dirc π = ⟨-1, 0⟩ := by
  unfold dirc; rw [Real.cos_pi, Real.sin_pi]

lemma dirc_two_pi : dirc (2*π) = ⟨1, 0⟩ := by
  unfold dirc; rw [Real.cos_two_pi, Real.sin_two_pi]

lemma hta_zero : headingToAngle 0 = π/2 := by
  unfold headingToAngle
  rw [show π/2 - (0:ℝ) = π/2 by ring, wrap_pi_div_two]

lemma hta_pi : headingToAngle π = 3*π/2 := by
  unfold headingToAngle
  rw [show π/2 - π = -(π/2) by ring, wrap_neg_pi_div_two]

lemma mk_add_mk (a b c d : ℝ) : (⟨a, b⟩ : ℂ) + ⟨c, d⟩ = ⟨a + c, b + d⟩ := rfl

lemma mk_sub_mk (a b c d : ℝ) : (⟨a, b⟩ : ℂ) - ⟨c, d⟩ = ⟨a - c, b - d⟩ := rfl

lemma abs_mk (a b : ℝ) : Complex.abs ⟨a, b⟩ = Real.sqrt (a*a + b*b) := by
  rw [Complex.abs_apply, Complex.normSq_mk]

lemma PC_rs_h0 (x y : ℝ) : PC_rs ⟨x, y, 0⟩ 1 = ⟨x + 1, y⟩ := by
  unfold PC_rs pos
  dsimp only
  rw [hta_zero, show π/2 - π/2 = (0:ℝ) by ring, dirc_zero, Complex.ofReal_one, one_mul,
    mk_add_mk]
  norm_num

lemma PC_ls_h0 (x y : ℝ) : PC_ls ⟨x, y, 0⟩ 1 = ⟨x - 1, y⟩ := by
  unfold PC_ls pos
  dsimp only
  rw [hta_zero, show π/2 + π/2 = π by ring, dirc_pi, Complex.ofReal_one, one_mul,
    mk_add_mk]
  norm_num
  rfl

lemma PC_rs_hpi (x y : ℝ) : PC_rs ⟨x, y, π⟩ 1 = ⟨x - 1, y⟩ := by
  unfold PC_rs pos
  dsimp only
  rw [hta_pi, show 3*π/2 - π/2 = π by ring, dirc_pi, Complex.ofReal_one, one_mul,
    mk_add_mk]
  norm_num
  rfl

lemma PC_ls_hpi (x y : ℝ) : PC_ls ⟨x, y, π⟩ 1 = ⟨x + 1, y⟩ := by
  unfold PC_ls pos
  dsimp only
  rw [hta_pi, show 3*π/2 + π/2 = 2*π by ring, dirc_two_pi, Complex.ofReal_one, one_mul,
    mk_add_mk]
  norm_num

lemma sqrt_eval (a b : ℝ) (hb : 0 ≤ b) (h : b^2 = a) : Real.sqrt a = b := by
  rw [← h, Real.sqrt_sq hb]

lemma mk_eq_ofReal (a : ℝ) : (⟨a, 0⟩ : ℂ) = (a : ℂ) := by
  apply Complex.ext
  · rw [mk_re, Complex.ofReal_re]
  · rw [mk_im, Complex.ofReal_im]

lemma arg_mk_pos_re (a : ℝ) (ha : 0 < a) : Complex.arg ⟨a, 0⟩ = 0 := by
  rw [mk_eq_ofReal]
  exact Complex.arg_ofReal_of_nonneg ha.le

lemma arg_mk_pos_im (b : ℝ) (hb : 0 < b) : Complex.arg ⟨0, b⟩ = π/2 := by
  have h : (⟨0, b⟩ : ℂ) = (b : ℂ) * Complex.I := by
    apply Complex.ext
    · simp [mk_re]
    · simp [mk_im]
  rw [h, Complex.arg_real_mul _ hb, Complex.arg_I]

lemma arg_mk_neg_im (b : ℝ) (hb : 0 < b) : Complex.arg ⟨0, -b⟩ = -(π/2) := by
  have h : (⟨0, -b⟩ : ℂ) = (b : ℂ) * (-Complex.I) := by
    apply Complex.ext
    · simp [mk_re]
    · simp [mk_im]
  rw [h, Complex.arg_real_mul _ hb, Complex.arg_neg_I]

lemma hB_east (c1 c2 : ℂ) (d : ℝ) (hd : 0 < d) (h : c2 - c1 = ⟨d, 0⟩) :
    headingBetween c1 c2 = π/2 := by
  unfold headingBetween
  rw [h, arg_mk_pos_re d hd, show π/2 - 0 = π/2 by ring, wrap_pi_div_two]

lemma hB_north (c1 c2 : ℂ) (d : ℝ) (hd : 0 < d) (h : c2 - c1 = ⟨0, d⟩) :
    headingBetween c1 c2 = 0 := by
  unfold headingBetween
  rw [h, arg_mk_pos_im d hd, show π/2 - π/2 = (0:ℝ) by ring, wrap_zero]

lemma hB_south (c1 c2 : ℂ) (d : ℝ) (hd : 0 < d) (h : c2 - c1 = ⟨0, -d⟩) :
    headingBetween c1 c2 = π := by
  unfold headingBetween
  rw [h, arg_mk_neg_im d hd, show π/2 - -(π/2) = π by ring, wrap_pi]

lemma dist_eval (x1 y1 h1 x2 y2 h2 : ℝ) :
    Complex.abs (pos ⟨x1, y1, h1⟩ - pos ⟨x2, y2, h2⟩)
      = Real.sqrt ((x1 - x2)*(x1 - x2) + (y1 - y2)*(y1 - y2)) := by
  unfold pos
  dsimp only
  rw [mk_sub_mk, abs_mk]

/-! Evaluation at the pose pair (0,0,π), (3,0,π) with r = 1: distance exactly
3r, but the Case III range check fires (its center distance is 1 < 2r). -/

lemma lsLSR_eval1 : lsLSR ⟨0, 0, π⟩ ⟨3, 0, π⟩ 1 = 1 := by
  unfold lsLSR
  rw [PC_rs_hpi, PC_ls_hpi, mk_sub_mk, abs_mk]
  norm_num

lemma dist_eval1 : Complex.abs (pos ⟨0, 0, π⟩ - pos ⟨3, 0, π⟩) = 3 := by
  rw [dist_eval]
  exact sqrt_eval _ _ (by norm_num) (by norm_num)

lemma dpl_eval1 : dubinsPathLength ⟨0, 0, π⟩ ⟨3, 0, π⟩ 1 = -1 := by
  have h1 : ¬ (Complex.abs (pos (⟨0, 0, π⟩:Configuration) - pos ⟨3, 0, π⟩) < 3*1) := by
    rw [dist_eval1]; norm_num
  have h2 : lsrOutOfRange ⟨0, 0, π⟩ ⟨3, 0, π⟩ 1 := by
    unfold lsrOutOfRange
    left
    rw [lsLSR_eval1]
    norm_num
  unfold dubinsPathLength
  rw [if_neg h1, if_pos h2]

/-! Evaluation at the pose pair (0,0,0), (3,0,0) with r = 1: the Case II asin
argument is 2/1 = 2, outside [-1,1], yet no failure is reported. -/

lemma lsRSL_eval2 : lsRSL ⟨0, 0, 0⟩ ⟨3, 0, 0⟩ 1 = 1 := by
  unfold lsRSL
  rw [PC_ls_h0, PC_rs_h0, mk_sub_mk, abs_mk]
  norm_num

lemma lsLSR_eval2 : lsLSR ⟨0, 0, 0⟩ ⟨3, 0, 0⟩ 1 = 5 := by
  unfold lsLSR
  rw [PC_rs_h0, PC_ls_h0, mk_sub_mk, abs_mk]
  exact sqrt_eval _ _ (by norm_num) (by norm_num)

lemma dist_eval2 : Complex.abs (pos ⟨0, 0, 0⟩ - pos ⟨3, 0, 0⟩) = 3 := by
  rw [dist_eval]
  exact sqrt_eval _ _ (by norm_num) (by norm_num)

lemma dpl_eval2_ne : dubinsPathLength ⟨0, 0, 0⟩ ⟨3, 0, 0⟩ 1 ≠ -1 := by
  have h1 : ¬ (Complex.abs (pos (⟨0, 0, 0⟩:Configuration) - pos ⟨3, 0, 0⟩) < 3*1) := by
    rw [dist_eval2]; norm_num
  have h2 : ¬ lsrOutOfRange ⟨0, 0, 0⟩ ⟨3, 0, 0⟩ 1 := by
    unfold lsrOutOfRange
    rw [lsLSR_eval2]
    norm_num
  unfold dubinsPathLength
  rw [if_neg h1, if_neg h2]
  split_ifs with h3
  · have h4 : (0:ℝ) ≤ min (dubinsL1 ⟨0, 0, 0⟩ ⟨3, 0, 0⟩ 1)
        (min (dubinsL3 ⟨0, 0, 0⟩ ⟨3, 0, 0⟩ 1) (dubinsL4 ⟨0, 0, 0⟩ ⟨3, 0, 0⟩ 1)) :=
      le_min (dubinsL1_nonneg _ _ _ (by norm_num))
        (le_min (dubinsL3_nonneg _ _ _ (by norm_num)) (dubinsL4_nonneg _ _ _ (by norm_num)))
    exact ne_of_gt (lt_of_lt_of_le (by norm_num) h4)
  · have h4 : (0:ℝ) ≤ min (dubinsL1 ⟨0, 0, 0⟩ ⟨3, 0, 0⟩ 1)
        (min (dubinsL2 ⟨0, 0, 0⟩ ⟨3, 0, 0⟩ 1)
          (min (dubinsL3 ⟨0, 0, 0⟩ ⟨3, 0, 0⟩ 1) (dubinsL4 ⟨0, 0, 0⟩ ⟨3, 0, 0⟩ 1))) :=
      le_min (dubinsL1_nonneg _ _ _ (by norm_num))
        (le_min (dubinsL2_nonneg _ _ _ (by norm_num))
          (le_min (dubinsL3_nonneg _ _ _ (by norm_num)) (dubinsL4_nonneg _ _ _ (by norm_num))))
    exact ne_of_gt (lt_of_lt_of_le (by norm_num) h4)

/-! Evaluation at the pose pair (0,0,0), (0,3,0) with r = 1: distance exactly
3r, both pointed straight along the connecting segment; the solver succeeds
and returns 3. -/

lemma sqrt13_lower : (2:ℝ) ≤ Real.sqrt 13 :=
  (Real.le_sqrt (by norm_num) (by norm_num)).mpr (by norm_num)

lemma sqrt13_pos : (0:ℝ) < Real.sqrt 13 := Real.sqrt_pos.mpr (by norm_num)

lemma lsRSL_eval3 : lsRSL ⟨0, 0, 0⟩ ⟨0, 3, 0⟩ 1 = Real.sqrt 13 := by
  unfold lsRSL
  rw [PC_ls_h0, PC_rs_h0, mk_sub_mk, abs_mk]
  norm_num

lemma lsLSR_eval3 : lsLSR ⟨0, 0, 0⟩ ⟨0, 3, 0⟩ 1 = Real.sqrt 13 := by
  unfold lsLSR
  rw [PC_rs_h0, PC_ls_h0, mk_sub_mk, abs_mk]
  norm_num

lemma dist_eval3 : Complex.abs (pos ⟨0, 0, 0⟩ - pos ⟨0, 3, 0⟩) = 3 := by
  rw [dist_eval]
  exact sqrt_eval _ _ (by norm_num) (by norm_num)

lemma L1_eval3 : dubinsL1 ⟨0, 0, 0⟩ ⟨0, 3, 0⟩ 1 = 3 := by
  have hc : PC_rs (⟨0, 3, 0⟩ : Configuration) 1 - PC_rs (⟨0, 0, 0⟩ : Configuration) 1
      = ⟨0, 3⟩ := by
    rw [PC_rs_h0, PC_rs_h0, mk_sub_mk]
    norm_num
  have hx : headingBetween (PC_rs (⟨0, 0, 0⟩ : Configuration) 1)
      (PC_rs (⟨0, 3, 0⟩ : Configuration) 1) = 0 := hB_north _ _ 3 (by norm_num) hc
  have habs : Complex.abs (PC_rs (⟨0, 0, 0⟩ : Configuration) 1
      - PC_rs (⟨0, 3, 0⟩ : Configuration) 1) = 3 := by
    rw [PC_rs_h0, PC_rs_h0, mk_sub_mk, abs_mk]
    exact sqrt_eval _ _ (by norm_num) (by norm_num)
  unfold dubinsL1
  rw [hx, habs]
  dsimp only
  rw [sweep_eq, show (0:ℝ) - π/2 - ((0:ℝ) - π/2) = 0 by ring, wrap_zero]
  norm_num

lemma dpl_eval3 : dubinsPathLength ⟨0, 0, 0⟩ ⟨0, 3, 0⟩ 1 = 3 := by
  have h1 : ¬ (Complex.abs (pos (⟨0, 0, 0⟩:Configuration) - pos ⟨0, 3, 0⟩) < 3*1) := by
    rw [dist_eval3]; norm_num
  have h2 : ¬ lsrOutOfRange ⟨0, 0, 0⟩ ⟨0, 3, 0⟩ 1 := by
    unfold lsrOutOfRange
    rw [lsLSR_eval3]
    have hle : 2*1/Real.sqrt 13 ≤ 1 := by
      rw [div_le_one sqrt13_pos]
      linarith [sqrt13_lower]
    have hge : (0:ℝ) ≤ 2*1/Real.sqrt 13 := by positivity
    intro h
    rcases h with h | h | h
    · linarith
    · linarith
    · exact (ne_of_gt sqrt13_pos) h.1
  have h3 : ¬ rslIsNaN ⟨0, 0, 0⟩ ⟨0, 3, 0⟩ 1 := by
    unfold rslIsNaN
    rw [lsRSL_eval3]
    have hmul : Real.sqrt 13 * Real.sqrt 13 = 13 := Real.mul_self_sqrt (by norm_num)
    have hle : 2*1/Real.sqrt 13 ≤ 1 := by
      rw [div_le_one sqrt13_pos]
      linarith [sqrt13_lower]
    have hge : (0:ℝ) ≤ 2*1/Real.sqrt 13 := by positivity
    intro h
    rcases h with h | h | h | h
    · rw [hmul] at h; linarith
    · exact (ne_of_gt sqrt13_pos) h
    · linarith
    · linarith
  have hge1 := dubinsL1_ge ⟨0, 0, 0⟩ ⟨0, 3, 0⟩ 1 (by norm_num)
  have hge2 := dubinsL2_ge ⟨0, 0, 0⟩ ⟨0, 3, 0⟩ 1 (by norm_num)
    (by rw [lsRSL_eval3]; linarith [sqrt13_lower]) (by rw [lsRSL_eval3]; exact sqrt13_pos)
  have hge3 := dubinsL3_ge ⟨0, 0, 0⟩ ⟨0, 3, 0⟩ 1 (by norm_num)
    (by rw [lsLSR_eval3]; linarith [sqrt13_lower]) (by rw [lsLSR_eval3]; exact sqrt13_pos)
  have hge4 := dubinsL4_ge ⟨0, 0, 0⟩ ⟨0, 3, 0⟩ 1 (by norm_num)
  rw [dist_eval3] at hge1 hge2 hge3 hge4
  unfold dubinsPathLength
  rw [if_neg h1, if_neg h2, if_neg h3]
  apply le_antisymm
  · exact le_trans (min_le_left _ _) (le_of_eq L1_eval3)
  · exact le_min hge1 (le_min hge2 (le_min hge3 hge4))

/-! Evaluation at the pose pair (0,3,π), (0,0,π) with r = 1: again distance
exactly 3r, pointed along the segment; the solver returns 3. -/

lemma lsRSL_eval4 : lsRSL ⟨0, 3, π⟩ ⟨0, 0, π⟩ 1 = Real.sqrt 13 := by
  unfold lsRSL
  rw [PC_ls_hpi, PC_rs_hpi, mk_sub_mk, abs_mk]
  norm_num

lemma lsLSR_eval4 : lsLSR ⟨0, 3, π⟩ ⟨0, 0, π⟩ 1 = Real.sqrt 13 := by
  unfold lsLSR
  rw [PC_rs_hpi, PC_ls_hpi, mk_sub_mk, abs_mk]
  norm_num

lemma dist_eval4 : Complex.abs (pos ⟨0, 3, π⟩ - pos ⟨0, 0, π⟩) = 3 := by
  rw [dist_eval]
  exact sqrt_eval _ _ (by norm_num) (by norm_num)

lemma L1_eval4 : dubinsL1 ⟨0, 3, π⟩ ⟨0, 0, π⟩ 1 = 3 := by
  have hc : PC_rs (⟨0, 0, π⟩ : Configuration) 1 - PC_rs (⟨0, 3, π⟩ : Configuration) 1
      = ⟨0, -3⟩ := by
    rw [PC_rs_hpi, PC_rs_hpi, mk_sub_mk]
    norm_num
  have hx : headingBetween (PC_rs (⟨0, 3, π⟩ : Configuration) 1)
      (PC_rs (⟨0, 0, π⟩ : Configuration) 1) = π := hB_south _ _ 3 (by norm_num) hc
  have habs : Complex.abs (PC_rs (⟨0, 3, π⟩ : Configuration) 1
      - PC_rs (⟨0, 0, π⟩ : Configuration) 1) = 3 := by
    rw [PC_rs_hpi, PC_rs_hpi, mk_sub_mk, abs_mk]
    exact sqrt_eval _ _ (by norm_num) (by norm_num)
  unfold dubinsL1
  rw [hx, habs]
  dsimp only
  rw [sweep_eq, show π - π/2 - (π - π/2) = (0:ℝ) by ring, wrap_zero]
  norm_num

lemma dpl_eval4 : dubinsPathLength ⟨0, 3, π⟩ ⟨0, 0, π⟩ 1 = 3 := by
  have h1 : ¬ (Complex.abs (pos (⟨0, 3, π⟩:Configuration) - pos ⟨0, 0, π⟩) < 3*1) := by
    rw [dist_eval4]; norm_num
  have h2 : ¬ lsrOutOfRange ⟨0, 3, π⟩ ⟨0, 0, π⟩ 1 := by
    unfold lsrOutOfRange
    rw [lsLSR_eval4]
    have hle : 2*1/Real.sqrt 13 ≤ 1 := by
      rw [div_le_one sqrt13_pos]
      linarith [sqrt13_lower]
    have hge : (0:ℝ) ≤ 2*1/Real.sqrt 13 := by positivity
    intro h
    rcases h with h | h | h
    · linarith
    · linarith
    · exact (ne_of_gt sqrt13_pos) h.1
  have h3 : ¬ rslIsNaN ⟨0, 3, π⟩ ⟨0, 0, π⟩ 1 := by
    unfold rslIsNaN
    rw [lsRSL_eval4]
    have hmul : Real.sqrt 13 * Real.sqrt 13 = 13 := Real.mul_self_sqrt (by norm_num)
    have hle : 2*1/Real.sqrt 13 ≤ 1 := by
      rw [div_le_one sqrt13_pos]
      linarith [sqrt13_lower]
    have hge : (0:ℝ) ≤ 2*1/Real.sqrt 13 := by positivity
    intro h
    rcases h with h | h | h | h
    · rw [hmul] at h; linarith
    · exact (ne_of_gt sqrt13_pos) h
    · linarith
    · linarith
  have hge1 := dubinsL1_ge ⟨0, 3, π⟩ ⟨0, 0, π⟩ 1 (by norm_num)
  have hge2 := dubinsL2_ge ⟨0, 3, π⟩ ⟨0, 0, π⟩ 1 (by norm_num)
    (by rw [lsRSL_eval4]; linarith [sqrt13_lower]) (by rw [lsRSL_eval4]; exact sqrt13_pos)
  have hge3 := dubinsL3_ge ⟨0, 3, π⟩ ⟨0, 0, π⟩ 1 (by norm_num)
    (by rw [lsLSR_eval4]; linarith [sqrt13_lower]) (by rw [lsLSR_eval4]; exact sqrt13_pos)
  have hge4 := dubinsL4_ge ⟨0, 3, π⟩ ⟨0, 0, π⟩ 1 (by norm_num)
  rw [dist_eval4] at hge1 hge2 hge3 hge4
  unfold dubinsPathLength
  rw [if_neg h1, if_neg h2, if_neg h3]
  apply le_antisymm
  · exact le_trans (min_le_left _ _) (le_of_eq L1_eval4)
  · exact le_min hge1 (le_min hge2 (le_min hge3 hge4))

/-! Evaluation at the pose pair (0,0,0), (4,0,0) with r = 1: both headings
due north (0), pure lateral offset 4r.  The R-S-L candidate degenerates to two
half-circle arcs with a zero-length crossing tangent and wins with value 2π;
the R-S-R and L-S-L candidates are each 4 + 2π. -/

lemma dist_eval5 : Complex.abs (pos ⟨0, 0, 0⟩ - pos ⟨4, 0, 0⟩) = 4 := by
  rw [dist_eval]
  exact sqrt_eval _ _ (by norm_num) (by norm_num)

lemma lsRSL_eval5 : lsRSL ⟨0, 0, 0⟩ ⟨4, 0, 0⟩ 1 = 2 := by
  unfold lsRSL
  rw [PC_ls_h0, PC_rs_h0, mk_sub_mk, abs_mk]
  exact sqrt_eval _ _ (by norm_num) (by norm_num)

lemma lsLSR_eval5 : lsLSR ⟨0, 0, 0⟩ ⟨4, 0, 0⟩ 1 = 6 := by
  unfold lsLSR
  rw [PC_rs_h0, PC_ls_h0, mk_sub_mk, abs_mk]
  exact sqrt_eval _ _ (by norm_num) (by norm_num)

lemma L1_eval5 : dubinsL1 ⟨0, 0, 0⟩ ⟨4, 0, 0⟩ 1 = 4 + 2*π := by
  have hc : PC_rs (⟨4, 0, 0⟩ : Configuration) 1 - PC_rs (⟨0, 0, 0⟩ : Configuration) 1
      = ⟨4, 0⟩ := by
    rw [PC_rs_h0, PC_rs_h0, mk_sub_mk]
    norm_num
  have hx : headingBetween (PC_rs (⟨0, 0, 0⟩ : Configuration) 1)
      (PC_rs (⟨4, 0, 0⟩ : Configuration) 1) = π/2 := hB_east _ _ 4 (by norm_num) hc
  have habs : Complex.abs (PC_rs (⟨0, 0, 0⟩ : Configuration) 1
      - PC_rs (⟨4, 0, 0⟩ : Configuration) 1) = 4 := by
    rw [PC_rs_h0, PC_rs_h0, mk_sub_mk, abs_mk]
    exact sqrt_eval _ _ (by norm_num) (by norm_num)
  unfold dubinsL1
  rw [hx, habs]
  dsimp only
  rw [sweep_eq, sweep_eq,
    show π/2 - π/2 - ((0:ℝ) - π/2) = π/2 by ring, wrap_pi_div_two,
    show (0:ℝ) - π/2 - (π/2 - π/2) = -(π/2) by ring, wrap_neg_pi_div_two]
  ring

lemma L2_eval5 : dubinsL2 ⟨0, 0, 0⟩ ⟨4, 0, 0⟩ 1 = 2*π := by
  have hc : PC_ls (⟨4, 0, 0⟩ : Configuration) 1 - PC_rs (⟨0, 0, 0⟩ : Configuration) 1
      = ⟨2, 0⟩ := by
    rw [PC_ls_h0, PC_rs_h0, mk_sub_mk]
    norm_num
  have hx : headingBetween (PC_rs (⟨0, 0, 0⟩ : Configuration) 1)
      (PC_ls (⟨4, 0, 0⟩ : Configuration) 1) = π/2 := hB_east _ _ 2 (by norm_num) hc
  unfold dubinsL2 x2RSL
  rw [lsRSL_eval5, hx, show (2:ℝ)*1/2 = 1 by norm_num, Real.arcsin_one]
  dsimp only
  rw [show (2:ℝ)*2 - 4*1*1 = 0 by norm_num, Real.sqrt_zero]
  rw [sweep_eq, sweep_eq,
    show π/2 - π/2 + π/2 - ((0:ℝ) - π/2) = π by ring,
    show π/2 - π/2 + π/2 + π - ((0:ℝ) + π/2) = π by ring, wrap_pi]
  ring

lemma L4_eval5 : dubinsL4 ⟨0, 0, 0⟩ ⟨4, 0, 0⟩ 1 = 4 + 2*π := by
  have hc : PC_ls (⟨4, 0, 0⟩ : Configuration) 1 - PC_ls (⟨0, 0, 0⟩ : Configuration) 1
      = ⟨4, 0⟩ := by
    rw [PC_ls_h0, PC_ls_h0, mk_sub_mk]
    norm_num
  have hx : headingBetween (PC_ls (⟨0, 0, 0⟩ : Configuration) 1)
      (PC_ls (⟨4, 0, 0⟩ : Configuration) 1) = π/2 := hB_east _ _ 4 (by norm_num) hc
  have habs : Complex.abs (PC_ls (⟨0, 0, 0⟩ : Configuration) 1
      - PC_ls (⟨4, 0, 0⟩ : Configuration) 1) = 4 := by
    rw [PC_ls_h0, PC_ls_h0, mk_sub_mk, abs_mk]
    exact sqrt_eval _ _ (by norm_num) (by norm_num)
  unfold dubinsL4
  rw [hx, habs]
  dsimp only
  rw [sweep_eq, sweep_eq,
    show (0:ℝ) + π/2 - (π/2 + π/2) = -(π/2) by ring, wrap_neg_pi_div_two,
    show π/2 + π/2 - ((0:ℝ) + π/2) = π/2 by ring, wrap_pi_div_two]
  ring

lemma L3_lower5 : 2*π ≤ dubinsL3 ⟨0, 0, 0⟩ ⟨4, 0, 0⟩ 1 := by
  have hc : PC_rs (⟨4, 0, 0⟩ : Configuration) 1 - PC_ls (⟨0, 0, 0⟩ : Configuration) 1
      = ⟨6, 0⟩ := by
    rw [PC_rs_h0, PC_ls_h0, mk_sub_mk]
    norm_num
  have hx : headingBetween (PC_ls (⟨0, 0, 0⟩ : Configuration) 1)
      (PC_rs (⟨4, 0, 0⟩ : Configuration) 1) = π/2 := hB_east _ _ 6 (by norm_num) hc
  unfold dubinsL3 x2LSR
  rw [lsLSR_eval5, hx, show (2:ℝ)*1/6 = 1/3 by norm_num]
  dsimp only
  have h0a : 0 < Real.arccos (1/3) := Real.arccos_pos.mpr (by norm_num)
  have hapi : Real.arccos (1/3) ≤ π := Real.arccos_le_pi _
  have hw : wrapAngle (-Real.arccos (1/3)) = 2*π - Real.arccos (1/3) := by
    rw [wrapAngle_eq_sub (-Real.arccos (1/3)) (-1)
      (by push_cast; linarith [Real.pi_pos]) (by push_cast; linarith)]
    push_cast; ring
  rw [sweep_eq, sweep_eq,
    show (0:ℝ) + π/2 - (π/2 + Real.arccos (1/3)) = -Real.arccos (1/3) by ring,
    show (0:ℝ) - π/2 - (π/2 + Real.arccos (1/3) - π) = -Real.arccos (1/3) by ring, hw]
  have hs := Real.sqrt_nonneg ((6:ℝ)*6 - 4*1*1)
  generalize Real.sqrt ((6:ℝ)*6 - 4*1*1) = s at hs ⊢
  generalize Real.arccos (1/3) = a at h0a hapi ⊢
  linarith

lemma dpl_eval5 : dubinsPathLength ⟨0, 0, 0⟩ ⟨4, 0, 0⟩ 1 = 2*π := by
  have h1 : ¬ (Complex.abs (pos (⟨0, 0, 0⟩:Configuration) - pos ⟨4, 0, 0⟩) < 3*1) := by
    rw [dist_eval5]; norm_num
  have h2 : ¬ lsrOutOfRange ⟨0, 0, 0⟩ ⟨4, 0, 0⟩ 1 := by
    unfold lsrOutOfRange
    rw [lsLSR_eval5]
    norm_num
  have h3 : ¬ rslIsNaN ⟨0, 0, 0⟩ ⟨4, 0, 0⟩ 1 := by
    unfold rslIsNaN
    rw [lsRSL_eval5]
    norm_num
  unfold dubinsPathLength
  rw [if_neg h1, if_neg h2, if_neg h3]
  apply le_antisymm
  · exact le_trans (min_le_right _ _) (le_trans (min_le_left _ _) (le_of_eq L2_eval5))
  · refine le_min ?_ (le_min (le_of_eq L2_eval5.symm) (le_min L3_lower5 ?_))
    · rw [L1_eval5]; linarith [Real.pi_pos]
    · rw [L4_eval5]; linarith [Real.pi_pos]

/-! Claim theorems. -/

/-- C6: for every set of poses and every identifier `i`, the diagonal entry
`(i, i)` of the matrix produced by `buildDubinsAdjacencyMatrix` equals the
fixed infeasibility sentinel `MAX_EDGE_COST`, independent of the pose values
and of the turn radius. -/
theorem C6_diagonal_sentinel {n : ℕ} (G : Fin n → Configuration) (turnRadius : ℝ)
    (i : Fin n) : buildDubinsAdjacencyMatrix G turnRadius i i = MAX_EDGE_COST := by
  unfold buildDubinsAdjacencyMatrix
  rw [if_pos rfl]

/-- C8: for every tour containing fewer than 2 poses, `dubinsTourCost` returns
exactly `0`, regardless of the turn radius and of the return-edge flag. -/
theorem C8_short_tour_zero (tour : List Configuration) (r : ℝ) (returnCost : Bool)
    (h : tour.length < 2) : dubinsTourCost tour r returnCost = 0 := by
  unfold dubinsTourCost
  rw [if_pos h]

/-- C8 witness: the empty tour costs exactly 0. -/
theorem C8_short_tour_zero_witness : dubinsTourCost [] 1 true = 0 :=
  C8_short_tour_zero [] 1 true (by norm_num)

/-- C9: a 4-pose tour with `includeReturnEdge = true` costs the sum of exactly
4 edge lengths (3 interior plus the closing edge), each summand being
`dubinsPathLength` of that pose pair; with the flag off the closing edge is
omitted.  (Proved without any feasibility hypothesis: the code sums the raw
return values.) -/
theorem C9_four_pose_tour_sum (a b c d : Configuration) (r : ℝ) :
    dubinsTourCost [a, b, c, d] r true
        = dubinsPathLength a b r + dubinsPathLength b c r + dubinsPathLength c d r
          + dubinsPathLength d a r
      ∧ dubinsTourCost [a, b, c, d] r false
        = dubinsPathLength a b r + dubinsPathLength b c r + dubinsPathLength c d r := by
  constructor
  · unfold dubinsTourCost
    norm_num [edgeSum]
    ring
  · unfold dubinsTourCost
    norm_num [edgeSum]
    ring

/-- C4 counterexample: in the 3-pose tour below the second edge fails
(`dubinsPathLength` returns the -1 sentinel), yet `dubinsTourCost` does not
fail as a whole: it returns the ordinary-looking total 2 (the valid first
edge 3 plus the folded-in sentinel -1). -/
theorem C4_counterexample :
    dubinsPathLength ⟨0, 0, π⟩ ⟨3, 0, π⟩ 1 = -1
      ∧ dubinsTourCost [⟨0, 3, π⟩, ⟨0, 0, π⟩, ⟨3, 0, π⟩] 1 false = 2 := by
  refine ⟨dpl_eval1, ?_⟩
  unfold dubinsTourCost
  norm_num [edgeSum]
  rw [dpl_eval4, dpl_eval1]
  norm_num

/-- C4 (amended): when an edge of a tour fails, `dubinsTourCost` does not
propagate the failure; the loop `cost += dubinsPathLength(...)` folds the
-1.0 sentinel of the failed edge into the running sum, so the caller receives
an ordinary numeric total (the sum of the other edges reduced by 1 for the
failed edge), indistinguishable from a fully valid cost. -/
theorem C4_failure_folded_into_sum (u v w : Configuration) (r : ℝ)
    (h : dubinsPathLength v w r = -1) :
    dubinsTourCost [u, v, w] r false = dubinsPathLength u v r - 1 := by
  unfold dubinsTourCost
  norm_num [edgeSum]
  rw [h]
  ring

/-- C4 witness: the amended statement at the concrete failing tour. -/
theorem C4_witness :
    dubinsTourCost [⟨0, 3, π⟩, ⟨0, 0, π⟩, ⟨3, 0, π⟩] 1 false
      = dubinsPathLength ⟨0, 3, π⟩ ⟨0, 0, π⟩ 1 - 1 :=
  C4_failure_folded_into_sum ⟨0, 3, π⟩ ⟨0, 0, π⟩ ⟨3, 0, π⟩ 1 dpl_eval1

/-- C7 counterexample: an off-diagonal entry of the cost matrix need not be a
nonnegative cost — for the two poses below the solver fails and the entry is
the raw -1 sentinel, a negative value. -/
theorem C7_counterexample :
    buildDubinsAdjacencyMatrix (![⟨0, 0, π⟩, ⟨3, 0, π⟩]) 1 0 1 = -1
      ∧ buildDubinsAdjacencyMatrix (![⟨0, 0, π⟩, ⟨3, 0, π⟩]) 1 0 1 < 0 := by
  have h : buildDubinsAdjacencyMatrix (![⟨0, 0, π⟩, ⟨3, 0, π⟩]) 1 0 1 = -1 := by
    unfold buildDubinsAdjacencyMatrix
    rw [if_neg (by decide : ¬(0 : Fin 2) = 1)]
    simp only [Matrix.cons_val_zero, Matrix.cons_val_one, Matrix.head_cons]
    exact dpl_eval1
  exact ⟨h, by rw [h]; norm_num⟩

/-- C7 (amended): every off-diagonal entry `(i, j)`, `i ≠ j`, of the matrix
produced by `buildDubinsAdjacencyMatrix` is the raw `dubinsPathLength` value of
that pose pair, which for a positive turn radius is either the -1 failure
sentinel or a nonnegative cost; the `MAX_EDGE_COST` sentinel itself appears
only on the diagonal. -/
theorem C7_offdiagonal (n : ℕ) (G : Fin n → Configuration) (r : ℝ) (hr : 0 < r)
    (i j : Fin n) (hij : i ≠ j) :
    buildDubinsAdjacencyMatrix G r i j = dubinsPathLength (G i) (G j) r
      ∧ (buildDubinsAdjacencyMatrix G r i j = -1
        ∨ 0 ≤ buildDubinsAdjacencyMatrix G r i j) := by
  have h : buildDubinsAdjacencyMatrix G r i j = dubinsPathLength (G i) (G j) r := by
    unfold buildDubinsAdjacencyMatrix
    rw [if_neg hij]
  refine ⟨h, ?_⟩
  rw [h]
  exact dubinsPathLength_neg_or_nonneg (G i) (G j) r hr.le

/-- C7 witness: the amended statement at a concrete matrix and index pair. -/
theorem C7_witness :
    buildDubinsAdjacencyMatrix (![⟨0, 0, 0⟩, ⟨0, 3, 0⟩]) 1 0 1
        = dubinsPathLength ⟨0, 0, 0⟩ ⟨0, 3, 0⟩ 1
      ∧ (buildDubinsAdjacencyMatrix (![⟨0, 0, 0⟩, ⟨0, 3, 0⟩]) 1 0 1 = -1
        ∨ 0 ≤ buildDubinsAdjacencyMatrix (![⟨0, 0, 0⟩, ⟨0, 3, 0⟩]) 1 0 1) := by
  have h := C7_offdiagonal 2 (![⟨0, 0, 0⟩, ⟨0, 3, 0⟩]) 1 (by norm_num) 0 1 (by decide)
  simpa only [Matrix.cons_val_zero, Matrix.cons_val_one, Matrix.head_cons] using h

/-- C1 counterexample: at the pose pair below (distance exactly 3r) the Case II
asin argument `2r/ls` equals 2, outside [-1, 1], yet `dubinsPathLength` does
not fail — it returns a value different from the -1 sentinel (the NaN
candidate `L2` is silently skipped by `std::min`). -/
theorem C1_counterexample :
    2*1 / lsRSL ⟨0, 0, 0⟩ ⟨3, 0, 0⟩ 1 > 1
      ∧ dubinsPathLength ⟨0, 0, 0⟩ ⟨3, 0, 0⟩ 1 ≠ -1 := by
  constructor
  · rw [lsRSL_eval2]; norm_num
  · exact dpl_eval2_ne

/-- C1 (amended): for every input with `r > 0`, `dubinsPathLength` returns
either the explicit -1 sentinel or a nonnegative value (never garbage), and an
out-of-range acos argument in the L-S-R case does make it fail with the
sentinel; but an out-of-range asin argument in the R-S-L case does not: that
candidate is dropped from the minimum instead (see `C1_counterexample`). -/
theorem C1_acos_guard_and_no_garbage (Cs Ce : Configuration) (r : ℝ) (hr : 0 < r) :
    (lsrOutOfRange Cs Ce r → dubinsPathLength Cs Ce r = -1)
      ∧ (dubinsPathLength Cs Ce r = -1 ∨ 0 ≤ dubinsPathLength Cs Ce r) := by
  constructor
  · intro ho
    unfold dubinsPathLength
    split_ifs with h1
    · rfl
    · rfl
  · exact dubinsPathLength_neg_or_nonneg Cs Ce r hr.le

/-- C1 witness: the amended statement at the Case III failing pair, where the
acos-range guard does fire and the sentinel is returned. -/
theorem C1_witness :
    (lsrOutOfRange ⟨0, 0, π⟩ ⟨3, 0, π⟩ 1 → dubinsPathLength ⟨0, 0, π⟩ ⟨3, 0, π⟩ 1 = -1)
      ∧ (dubinsPathLength ⟨0, 0, π⟩ ⟨3, 0, π⟩ 1 = -1
        ∨ 0 ≤ dubinsPathLength ⟨0, 0, π⟩ ⟨3, 0, π⟩ 1) :=
  C1_acos_guard_and_no_garbage ⟨0, 0, π⟩ ⟨3, 0, π⟩ 1 (by norm_num)

/-- C2 counterexample: a pose pair at distance exactly 3r (so the distance
precondition holds) on which `dubinsPathLength` returns -1 — a negative value,
smaller than the straight-line distance — because the Case III angle-range
check fires. -/
theorem C2_counterexample :
    Complex.abs (pos ⟨0, 0, π⟩ - pos ⟨3, 0, π⟩) = 3*1
      ∧ dubinsPathLength ⟨0, 0, π⟩ ⟨3, 0, π⟩ 1 = -1
      ∧ dubinsPathLength ⟨0, 0, π⟩ ⟨3, 0, π⟩ 1 < 0 := by
  refine ⟨by rw [dist_eval1]; norm_num, dpl_eval1, ?_⟩
  rw [dpl_eval1]; norm_num

/-- C2 (amended): for every pose pair at distance at least 3r with `r > 0`,
`dubinsPathLength` either fails with the -1 sentinel (which can happen, see
`C2_counterexample`) or returns a value at least the straight-line Euclidean
distance between the two positions, hence nonnegative. -/
theorem C2_length_ge_distance (Cs Ce : Configuration) (r : ℝ) (hr : 0 < r)
    (hd : 3*r ≤ Complex.abs (pos Cs - pos Ce)) :
    dubinsPathLength Cs Ce r = -1
      ∨ (Complex.abs (pos Cs - pos Ce) ≤ dubinsPathLength Cs Ce r
        ∧ 0 ≤ dubinsPathLength Cs Ce r) := by
  rcases dubinsPathLength_ge_dist Cs Ce r hr hd with h | h
  · exact Or.inl h
  · refine Or.inr ⟨h, ?_⟩
    have h0 : (0:ℝ) < 3*r := by linarith
    linarith [Complex.abs.nonneg (pos Cs - pos Ce)]

/-- C2 witness: the amended statement at a concrete pair at distance exactly
3r, where the returned value 3 equals the straight-line distance. -/
theorem C2_witness :
    dubinsPathLength ⟨0, 0, 0⟩ ⟨0, 3, 0⟩ 1 = -1
      ∨ (Complex.abs (pos ⟨0, 0, 0⟩ - pos ⟨0, 3, 0⟩) ≤ dubinsPathLength ⟨0, 0, 0⟩ ⟨0, 3, 0⟩ 1
        ∧ 0 ≤ dubinsPathLength ⟨0, 0, 0⟩ ⟨0, 3, 0⟩ 1) :=
  C2_length_ge_distance ⟨0, 0, 0⟩ ⟨0, 3, 0⟩ 1 (by norm_num)
    (by rw [dist_eval3]; norm_num)

/-- C3 counterexample: the claim says that at distance exactly 3r the function
does not fail; the pair below is at distance exactly 3r = 3 and it fails with
the -1 sentinel (through the Case III angle-range check, not the distance
check). -/
theorem C3_counterexample :
    Complex.abs (pos ⟨0, 0, π⟩ - pos ⟨3, 0, π⟩) = 3*1
      ∧ dubinsPathLength ⟨0, 0, π⟩ ⟨3, 0, π⟩ 1 = -1 ∧ ((-1:ℝ)) ≠ 3 := by
  exact ⟨by rw [dist_eval1]; norm_num, dpl_eval1, by norm_num⟩

/-- C3 (amended): `dubinsPathLength` fails with the -1 sentinel whenever the
distance is strictly below 3r (the distance check itself is boundary
inclusive); in particular identical start and end poses fail for every r > 0
and never return 0.  At distance exactly 3r the distance check passes and the
function can succeed (the concrete pair below returns 3), but it may still
fail through the Case III angle-range check, which returns the same sentinel
(see `C3_counterexample`). -/
theorem C3_distance_check :
    (∀ (Cs Ce : Configuration) (r : ℝ),
        Complex.abs (pos Cs - pos Ce) < 3*r → dubinsPathLength Cs Ce r = -1)
      ∧ (∀ (C : Configuration) (r : ℝ), 0 < r →
        dubinsPathLength C C r = -1 ∧ dubinsPathLength C C r ≠ 0)
      ∧ (Complex.abs (pos ⟨0, 0, 0⟩ - pos ⟨0, 3, 0⟩) = 3*1
        ∧ dubinsPathLength ⟨0, 0, 0⟩ ⟨0, 3, 0⟩ 1 = 3) := by
  have hlt : ∀ (Cs Ce : Configuration) (r : ℝ),
      Complex.abs (pos Cs - pos Ce) < 3*r → dubinsPathLength Cs Ce r = -1 := by
    intro Cs Ce r h
    unfold dubinsPathLength
    rw [if_pos h]
  refine ⟨hlt, ?_, ⟨by rw [dist_eval3]; norm_num, dpl_eval3⟩⟩
  intro C r hr
  have hzero : Complex.abs (pos C - pos C) < 3*r := by
    rw [sub_self, map_zero]
    linarith
  have h := hlt C C r hzero
  exact ⟨h, by rw [h]; norm_num⟩

/-- C3 witness: the distance-check part of the amended statement applied at a
concrete pair strictly closer than 3r. -/
theorem C3_witness : dubinsPathLength ⟨0, 0, 0⟩ ⟨1, 0, 0⟩ 1 = -1 :=
  C3_distance_check.1 ⟨0, 0, 0⟩ ⟨1, 0, 0⟩ 1
    (by rw [dist_eval]; rw [sqrt_eval _ 1 (by norm_num) (by norm_num)]; norm_num)

/-- C5 counterexample: on the due-north pose pair with pure lateral offset 4r
(r = 1) the solver returns 2π, not 4 + π; the difference 4 - π is far above
the 1e-6 tolerance. -/
theorem C5_counterexample :
    dubinsPathLength ⟨0, 0, 0⟩ ⟨4, 0, 0⟩ 1 = 2*π
      ∧ ¬ (|dubinsPathLength ⟨0, 0, 0⟩ ⟨4, 0, 0⟩ 1 - (4 + π)| ≤ 1/1000000) := by
  refine ⟨dpl_eval5, ?_⟩
  rw [dpl_eval5]
  have h1 : 2*π - (4 + π) = π - 4 := by ring
  rw [h1, abs_of_neg (by linarith [Real.pi_lt_d2])]
  intro h
  have := Real.pi_lt_d2
  linarith

/-- C5 (amended): for the two poses heading due north separated by a pure
lateral offset of 4r with r = 1, `dubinsPathLength` returns exactly 2π — the
R-S-L candidate, two half-circle arcs joined by a zero-length crossing
tangent — while the L-S-L and R-S-R candidates each evaluate to 4 + 2π (not
the 4 + π the claim expects). -/
theorem C5_lateral_offset_value :
    dubinsPathLength ⟨0, 0, 0⟩ ⟨4, 0, 0⟩ 1 = 2*π
      ∧ dubinsL2 ⟨0, 0, 0⟩ ⟨4, 0, 0⟩ 1 = 2*π
      ∧ dubinsL1 ⟨0, 0, 0⟩ ⟨4, 0, 0⟩ 1 = 4 + 2*π
      ∧ dubinsL4 ⟨0, 0, 0⟩ ⟨4, 0, 0⟩ 1 = 4 + 2*π :=
  ⟨dpl_eval5, L2_eval5, L1_eval5, L4_eval5⟩

/-- C10: for every input with `r > 0`, `dubinsPathLength` returns the constant
-1.0 exactly on the union of its two failure branches — the distance check and
the Case III angle-range check — so the two error kinds are not
distinguishable from the return value alone. -/
theorem C10_single_sentinel (Cs Ce : Configuration) (r : ℝ) (hr : 0 < r) :
    dubinsPathLength Cs Ce r = -1
      ↔ (Complex.abs (pos Cs - pos Ce) < 3*r ∨ lsrOutOfRange Cs Ce r) := by
  constructor
  · intro h
    by_contra hc
    push_neg at hc
    obtain ⟨h1, h2⟩ := hc
    unfold dubinsPathLength at h
    rw [if_neg (not_lt.mpr h1), if_neg h2] at h
    split_ifs at h with h3
    · have h4 : (0:ℝ) ≤ min (dubinsL1 Cs Ce r)
          (min (dubinsL3 Cs Ce r) (dubinsL4 Cs Ce r)) :=
        le_min (dubinsL1_nonneg _ _ _ hr.le)
          (le_min (dubinsL3_nonneg _ _ _ hr.le) (dubinsL4_nonneg _ _ _ hr.le))
      rw [h] at h4
      linarith
    · have h4 : (0:ℝ) ≤ min (dubinsL1 Cs Ce r)
          (min (dubinsL2 Cs Ce r) (min (dubinsL3 Cs Ce r) (dubinsL4 Cs Ce r))) :=
        le_min (dubinsL1_nonneg _ _ _ hr.le)
          (le_min (dubinsL2_nonneg _ _ _ hr.le)
            (le_min (dubinsL3_nonneg _ _ _ hr.le) (dubinsL4_nonneg _ _ _ hr.le)))
      rw [h] at h4
      linarith
  · intro h
    unfold dubinsPathLength
    split_ifs with h1 h2 h3
    · rfl
    · rfl
    · rcases h with h | h
      · exact absurd h h1
      · exact absurd h h2
    · rcases h with h | h
      · exact absurd h h1
      · exact absurd h h2

/-- C10 witness: the characterization applied at a concrete failing pair. -/
theorem C10_witness :
    dubinsPathLength ⟨0, 0, π⟩ ⟨3, 0, π⟩ 1 = -1
      ↔ (Complex.abs (pos ⟨0, 0, π⟩ - pos ⟨3, 0, π⟩) < 3*1
        ∨ lsrOutOfRange ⟨0, 0, π⟩ ⟨3, 0, π⟩ 1) :=
  C10_single_sentinel ⟨0, 0, π⟩ ⟨3, 0, π⟩ 1 (by norm_num)
